import Mathlib

/-!
Verification of the Everything_Web server (src/main.go) against its
natural-language specification.

The Go code is shallowly embedded: Go strings are `List Char` (for the
ASCII range-header parsing) or `List Nat` (byte sequences, for the URL
paths that may decode to arbitrary bytes), Go `int64`/`int` values are
`Int` with explicit two's-complement wrapping (`wrap64`) at the
operations where Go overflow matters, times are `Int` nanosecond counts
(Go `time.Time`/`time.Duration` arithmetic), and the global
`searchCache` map is a lookup function `String → Option SearchCache`.
-/

set_option maxRecDepth 100000

namespace EverythingWeb

/-- Two's-complement wrap of an `Int` into the `int64` range, modelling
Go `int64` overflow. -/
def wrap64 (x : Int) : Int :=
  (x + 2 ^ 63) % 2 ^ 64 - 2 ^ 63

/-- An HTTP response as observed by the client.  `bodyBytes` are the raw
bytes copied to the response writer from a file or a subprocess;
`bodyText` is the text written by `http.Error` / `fmt` (the wire body is
the UTF-8 encoding of `bodyText` followed by `bodyBytes`; in this server
at most one of the two is nonempty). -/
structure HttpResponse where
  status : Nat
  headers : List (String × String)
  bodyBytes : List Nat
  bodyText : String
  deriving DecidableEq, Repr

/-- Model of Go `http.Error(w, msg, code)`: it sets the two headers
below, writes the status code, and writes `msg` plus a newline as the
body. -/
def httpError (msg : String) (code : Nat) : HttpResponse :=
  { status := code
    headers := [("Content-Type", "text/plain; charset=utf-8"),
                ("X-Content-Type-Options", "nosniff")]
    bodyBytes := []
    bodyText := msg ++ "\n" }

/-- The uniform 416 response of `serveRange` (`http.Error(w, "无效的Range头",
http.StatusRequestedRangeNotSatisfiable)`, src/main.go). -/
def rangeError : HttpResponse :=
  httpError "无效的Range头" 416

/-- Go `strings.Split(s, "-")` on a string viewed as a character list. -/
def splitOnDash : List Char → List (List Char)
  | [] => [[]]
  | c :: t =>
    match splitOnDash t with
    | [] => [[]]
    | h :: hs => if c = '-' then [] :: h :: hs else (c :: h) :: hs

/-- Decimal value of a nonempty all-digit string; `none` on the empty
string or any non-digit (the digit-consuming loop of Go
`strconv.ParseInt`). -/
def digitsVal : List Char → Option Nat
  | [] => none
  | [c] => if c.isDigit then some (c.toNat - 48) else none
  | c :: t =>
    if c.isDigit then
      (digitsVal t).map (fun n => (c.toNat - 48) * 10 ^ t.length + n)
    else none

/-- Go `strconv.ParseInt(s, 10, 64)`: optional sign, then at least one
decimal digit, value within the `int64` range; `none` models a non-nil
error. -/
def parseInt64 (s : List Char) : Option Int :=
  match s with
  | [] => none
  | c :: t =>
    if c = '+' then
      (digitsVal t).bind (fun n => if (n : Int) ≤ 2 ^ 63 - 1 then some (n : Int) else none)
    else if c = '-' then
      (digitsVal t).bind (fun n => if (n : Int) ≤ 2 ^ 63 then some (-(n : Int)) else none)
    else
      (digitsVal (c :: t)).bind (fun n => if (n : Int) ≤ 2 ^ 63 - 1 then some (n : Int) else none)

/-- The start/end extraction of `serveRange` (src/main.go, `serveRange`):
split the spec on `-`; exactly two parts are required; an empty first
part leaves `start` at its zero value `0`; an empty second part sets
`end = fileSize - 1`; a nonempty part must parse as a decimal `int64`.
`none` models any of the early `http.Error(..., 416)` returns. -/
def parseRangeParts (rangeSpec : List Char) (fileSize : Int) : Option (Int × Int) :=
  match splitOnDash rangeSpec with
  | [p0, p1] =>
    match (if p0 = [] then some (0 : Int) else parseInt64 p0) with
    | none => none
    | some start =>
      match (if p1 = [] then some (fileSize - 1) else parseInt64 p1) with
      | none => none
      | some e => some (start, e)
  | _ => none

/-- `serveRange` (src/main.go): Range-request handling over a file of
`fileSize` bytes whose contents are `fileBytes`.  The header must start
with `bytes=`; after parsing, `start > end || start >= fileSize` is
rejected with 416; otherwise a 206 response carries
`contentLength = end - start + 1` bytes starting at offset `start`
(`file.Seek(start, 0)` then `io.CopyN(w, file, contentLength)`, which
stops early at end of file). -/
def serveRange (rangeHeader : List Char) (fileSize : Int) (fileBytes : List Nat)
    (contentType : String) : HttpResponse :=
  match rangeHeader with
  | 'b' :: 'y' :: 't' :: 'e' :: 's' :: '=' :: rangeSpec =>
    match parseRangeParts rangeSpec fileSize with
    | none => rangeError
    | some (start, e) =>
      if start > e ∨ start ≥ fileSize then rangeError
      else
        let contentLength := wrap64 (e - start + 1)
        { status := 206
          headers := [("Content-Type", contentType),
            ("Content-Range",
              "bytes " ++ toString start ++ "-" ++ toString e ++ "/" ++ toString fileSize),
            ("Content-Length", toString contentLength),
            ("Accept-Ranges", "bytes")]
          bodyBytes := (fileBytes.drop start.toNat).take contentLength.toNat
          bodyText := "" }
  | _ => rangeError

/-- The characters of a string (Go strings here are ASCII, so characters
coincide with bytes). -/
def chars (s : String) : List Char := s.data

/-! ## Search cache (src/main.go: `searchCache`, `searchFilesWithCache`,
`cleanExpiredCache`)

Times are `Int` nanosecond counts; `time.Since(t)` at current time `now`
is `now - t`. -/

/-- `cacheExpiry = 10 * time.Minute` in nanoseconds (src/main.go). -/
def cacheExpiry : Int := 600000000000

/-- The `SearchCache` struct (src/main.go): cached paths and the capture
time. -/
structure SearchCache where
  Paths : List String
  Timestamp : Int
  deriving DecidableEq, Repr

/-- The global `searchCache` map, modelled by its lookup function. -/
def CacheMap : Type := String → Option SearchCache

/-- The empty cache (`make(map[string]*SearchCache)`). -/
def emptyCache : CacheMap := fun _ => none

/-- Map store `searchCache[query] = &SearchCache{Paths: paths,
Timestamp: now}` (src/main.go, `searchFilesWithCache` miss branch). -/
def cachePut (m : CacheMap) (query : String) (paths : List String) (now : Int) : CacheMap :=
  fun q => if q = query then some { Paths := paths, Timestamp := now } else m q

/-- The cache-hit test of `searchFilesWithCache` (src/main.go):
`cache, exists := searchCache[query]` followed by
`exists && time.Since(cache.Timestamp) < cacheExpiry`; a hit yields the
cached path list. -/
def cacheGet (m : CacheMap) (now : Int) (query : String) : Option (List String) :=
  match m query with
  | some c => if now - c.Timestamp < cacheExpiry then some c.Paths else none
  | none => none

/-- `cleanExpiredCache` (src/main.go): one sweep over the map deletes
every entry with `time.Since(cache.Timestamp) > cacheExpiry`.  The
per-entry delete decisions are independent, so the resulting map is this
pointwise filter. -/
def cleanExpiredCache (now : Int) (m : CacheMap) : CacheMap :=
  fun q =>
    match m q with
    | some c => if now - c.Timestamp > cacheExpiry then none else some c
    | none => none

/-! ## Search results and pagination (src/main.go:
`searchFilesWithCache`, `apiSearchHandler`) -/

/-- The fields of `os.FileInfo` the server reads.  `modTime` is the
already-formatted `ModTime().Format("2006-01-02 15:04:05")` string. -/
structure FileInfo where
  size : Int
  modTime : String
  isDir : Bool
  deriving DecidableEq, Repr

/-- The `SearchResult` struct (src/main.go). -/
structure SearchResult where
  Name : String
  Path : String
  Size : Int
  Modified : String
  IsDir : Bool
  «Type» : String
  deriving DecidableEq, Repr

/-- Windows path-separator test (`os.IsPathSeparator`: `\` or `/`). -/
def isSep (c : Char) : Bool := c = '\\' ∨ c = '/'

/-- Go `filepath.Base` on Windows (drive-letter volume names; UNC
`\\host\share` volume prefixes do not occur in this server's inputs
and are not distinguished): strip trailing separators, drop the volume
name, and keep everything after the last separator. -/
def winBase (path : String) : String :=
  match path.data with
  | [] => "."
  | cs =>
    let cs := (cs.reverse.dropWhile isSep).reverse
    let cs := match cs with
      | a :: ':' :: rest => if a.isAlpha then rest else cs
      | _ => cs
    let b := (cs.reverse.takeWhile (fun c => ¬ isSep c)).reverse
    if b = [] then "\\" else String.mk b

/-- Go `filepath.Ext`: the suffix beginning at the final dot in the
final path element (empty if the final element has no dot). -/
def fileExt (path : String) : String :=
  String.mk (extRevAux [] path.data.reverse)
where
  /-- Walk the reversed path; stop empty at a separator, return the
  accumulated suffix when the dot is found. -/
  extRevAux (acc : List Char) : List Char → List Char
    | [] => []
    | c :: t =>
      if isSep c then []
      else if c = '.' then '.' :: acc
      else extRevAux (c :: acc) t

/-- ASCII lower-casing of `strings.ToLower` (the extension literals the
server compares against are all ASCII). -/
def asciiToLower (s : String) : String :=
  String.mk (s.data.map (fun c =>
    if 'A' ≤ c ∧ c ≤ 'Z' then Char.ofNat (c.toNat + 32) else c))

/-- Construction of one `SearchResult` from a path and its stat info,
including the extension-based `Type` switch (src/main.go,
`searchFilesWithCache` loop body). -/
def mkSearchResult (path : String) (info : FileInfo) : SearchResult :=
  { Name := winBase path
    Path := path
    Size := info.size
    Modified := info.modTime
    IsDir := info.isDir
    «Type» :=
      if info.isDir then "folder"
      else
        let ext := asciiToLower (fileExt path)
        if ext ∈ [".mp4", ".mkv", ".avi", ".mov", ".wmv", ".flv", ".webm"] then "video"
        else if ext ∈ [".jpg", ".jpeg", ".png", ".gif", ".bmp", ".webp"] then "image"
        else "file" }

/-- Outcome of `searchFilesWithCache`: a normal return
`(results, totalCount, fromCache, nil)`, a non-nil `error` return, or a
Go runtime panic (index out of range). -/
inductive SearchOutcome where
  | ok (results : List SearchResult) (totalCount : Int) (fromCache : Bool)
  | goError (msg : String)
  | panic (msg : String)
  deriving DecidableEq, Repr

/-- The page-slice bounds of `searchFilesWithCache` (src/main.go):
`start := (page - 1) * pageSize; end := start + pageSize;
if end > totalCount { end = totalCount }`, with Go `int` (64-bit)
overflow made explicit. -/
def pageBounds (page pageSize totalCount : Int) : Int × Int :=
  let start := wrap64 ((page - 1) * pageSize)
  let e := wrap64 (start + pageSize)
  (start, if e > totalCount then totalCount else e)

/-- The stat-and-collect loop `for i := start; i < end; i++` of
`searchFilesWithCache` (src/main.go): `fuel` is the remaining iteration
count `end - i`; a failed `os.Stat` (`fs path = none`) skips the entry
(`continue`); an index outside the slice is the Go panic
`allPaths[i]` would raise. -/
def statLoop (fs : String → Option FileInfo) (allPaths : List String) :
    Int → Nat → Except String (List SearchResult)
  | _, 0 => .ok []
  | i, fuel + 1 =>
    if h : 0 ≤ i ∧ i < (allPaths.length : Int) then
      let path := allPaths.get ⟨i.toNat, by omega⟩
      match fs path with
      | none => statLoop fs allPaths (i + 1) fuel
      | some info =>
        (statLoop fs allPaths (i + 1) fuel).map (fun rs => mkSearchResult path info :: rs)
    else .error "index out of range"

/-- The pagination tail of `searchFilesWithCache` (src/main.go), run
after `allPaths` is in hand: early empty return when
`totalCount == 0`, otherwise the stat loop over
`[start, end)` — guarded by `start < totalCount`, else empty results. -/
def paginate (fs : String → Option FileInfo) (allPaths : List String)
    (page pageSize : Int) (fromCache : Bool) : SearchOutcome :=
  let totalCount : Int := allPaths.length
  if totalCount = 0 then .ok [] 0 fromCache
  else
    let (start, e) := pageBounds page pageSize totalCount
    if start < totalCount then
      match statLoop fs allPaths start (e - start).toNat with
      | .ok rs => .ok rs totalCount fromCache
      | .error msg => .panic msg
    else .ok [] totalCount fromCache

/-- `searchFilesWithCache` (src/main.go).  The two backends are passed
as the results their calls would produce: on a cache miss the SDK result
is consulted first, `searchWithESExe` only when the SDK failed; when
both fail, the combined error is built by
`fmt.Errorf("搜索失败 - SDK错误: %v, es.exe错误: %v", err, err)` — at that
point `err` has been overwritten by the es.exe call, so both verbs
print the es.exe error.  On success the paths are stored in the cache
before pagination. -/
def searchFilesWithCache (query : String) (page pageSize : Int) (now : Int)
    (sdk es : Except String (List String)) (fs : String → Option FileInfo)
    (m : CacheMap) : SearchOutcome × CacheMap :=
  match cacheGet m now query with
  | some allPaths => (paginate fs allPaths page pageSize true, m)
  | none =>
    match sdk with
    | .ok allPaths =>
      (paginate fs allPaths page pageSize false, cachePut m query allPaths now)
    | .error _sdkErr =>
      match es with
      | .ok allPaths =>
        (paginate fs allPaths page pageSize false, cachePut m query allPaths now)
      | .error esErr =>
        (.goError ("搜索失败 - SDK错误: " ++ esErr ++ ", es.exe错误: " ++ esErr), m)

/-- `totalPages := (totalCount + pageSize - 1) / pageSize` computed by
`apiSearchHandler` (src/main.go) with Go integer division (truncation
toward zero). -/
def totalPages (totalCount pageSize : Int) : Int :=
  (totalCount + pageSize - 1).tdiv pageSize

/-- An `os.Stat` model under which every path stats successfully (used
to observe the page window before stat-failure filtering). -/
def fsAllOk : String → Option FileInfo :=
  fun _ => some { size := 0, modTime := "", isDir := false }

/-- An `os.Stat` model under which every stat fails. -/
def fsNone : String → Option FileInfo := fun _ => none

/-! ## URL path resolution (src/main.go: `streamHandler`,
`transcodeHandler`, `fileHandler`, `thumbnailHandler`)

These handlers work on `r.URL.Path` as a byte string; decoded bytes may
be arbitrary, so paths are `List Nat` here (one `Nat` per byte). -/

/-- Go `ishex`: is the byte an ASCII hex digit. -/
def ishex (c : Nat) : Bool :=
  (48 ≤ c ∧ c ≤ 57) ∨ (97 ≤ c ∧ c ≤ 102) ∨ (65 ≤ c ∧ c ≤ 70)

/-- Go `unhex`: value of an ASCII hex digit byte. -/
def unhex (c : Nat) : Nat :=
  if c ≤ 57 then c - 48
  else if 97 ≤ c then c - 97 + 10
  else c - 65 + 10

/-- Go `url.QueryUnescape`: each `%XX` with two hex digits becomes the
byte `XX`, `+` becomes a space, anything else is copied; a `%` not
followed by two hex digits is an `EscapeError` (`none`). -/
def queryUnescape : List Nat → Option (List Nat)
  | [] => some []
  | 37 :: a :: b :: t =>
    if ishex a ∧ ishex b then
      (queryUnescape t).map (fun r => (unhex a * 16 + unhex b) :: r)
    else none
  | 37 :: _ => none
  | 43 :: t => (queryUnescape t).map (fun r => 32 :: r)
  | c :: t => (queryUnescape t).map (fun r => c :: r)

/-- The handlers' decode loop
`for i := 0; i < 3; i++ { if decoded, err := url.QueryUnescape(filePath); err == nil { filePath = decoded } else { break } }`
(src/main.go, identical in `fileHandler`, `streamHandler`,
`thumbnailHandler` and `transcodeHandler`), with the iteration count as
the first argument. -/
def decodeLoop : Nat → List Nat → List Nat
  | 0, s => s
  | n + 1, s =>
    match queryUnescape s with
    | some d => decodeLoop n d
    | none => s

/-- `strings.ReplaceAll(filePath, "/", "\\")` on bytes (47 is `/`, 92 is
`\`). -/
def backslashify (s : List Nat) : List Nat :=
  s.map (fun c => if c = 47 then 92 else c)

/-- The full path derivation the handlers share: three decode passes,
then forward slashes to backslashes. -/
def resolvePath (s : List Nat) : List Nat :=
  backslashify (decodeLoop 3 s)

/-- `streamHandler` path derivation: `filePath := r.URL.Path[8:]` (strip
`/stream/`), decode loop, slash replacement (src/main.go). -/
def streamFilePath (urlPath : List Nat) : List Nat :=
  resolvePath (urlPath.drop 8)

/-- `fileHandler` path derivation: `filePath := r.URL.Path[6:]` (strip
`/file/`), decode loop, slash replacement (src/main.go). -/
def fileFilePath (urlPath : List Nat) : List Nat :=
  resolvePath (urlPath.drop 6)

/-- `transcodeHandler` path derivation: `filePath := r.URL.Path[11:]`
(strip `/transcode/`), decode loop, slash replacement (src/main.go). -/
def transcodeFilePath (urlPath : List Nat) : List Nat :=
  resolvePath (urlPath.drop 11)

/-- The bytes of an ASCII string (used to write concrete byte-level
paths readably). -/
def ascii (s : String) : List Nat := s.data.map Char.toNat

/-! ## Transcoding (src/main.go: `checkFFmpegAvailability`,
`transcodeHandler`) -/

/-- `checkFFmpegAvailability` (src/main.go), run once from `main` at
startup: `ffmpegAvailable` is false exactly when the
`ffmpeg -version` probe returned an error. -/
def checkFFmpegAvailability (probeErr : Bool) : Bool :=
  if probeErr then false else true

/-- The argv of the ffmpeg process `transcodeHandler` spawns
(src/main.go). -/
def ffmpegArgv (input : List Nat) : List (List Nat) :=
  [ascii "ffmpeg", ascii "-i", input, ascii "-c:v", ascii "libx264",
   ascii "-c:a", ascii "aac", ascii "-preset", ascii "fast",
   ascii "-crf", ascii "23", ascii "-maxrate", ascii "2M",
   ascii "-bufsize", ascii "4M", ascii "-f", ascii "mp4",
   ascii "-movflags", ascii "frag_keyframe+empty_moov", ascii "-"]

/-- The headers `transcodeHandler` sets before starting ffmpeg. -/
def transcodeBaseHeaders : List (String × String) :=
  [("Content-Type", "video/mp4"), ("Accept-Ranges", "bytes"),
   ("Cache-Control", "no-cache")]

/-- `transcodeHandler` (src/main.go).  Environment inputs:
`statNotExist` is whether `os.Stat` on the resolved path returns a
not-exist error, `stderrPipeOk`/`startOk` whether `cmd.StderrPipe()`
and `cmd.Start()` succeed, `ffmpegOutput` the bytes the transcoder
writes to the response.  The second component is the argv of the
spawned process, `none` when no process was spawned.  In the two
5xx branches after the base headers were set, `http.Error` overwrites
`Content-Type` and appends its own headers; the models keep both
lists. -/
def transcodeHandler (ffmpegAvailable : Bool) (urlPath : List Nat)
    (statNotExist : List Nat → Bool) (stderrPipeOk startOk : Bool)
    (ffmpegOutput : List Nat) : HttpResponse × Option (List (List Nat)) :=
  if ¬ ffmpegAvailable then
    (httpError "ffmpeg不可用" 503, none)
  else
    let filePath := transcodeFilePath urlPath
    if statNotExist filePath then
      (httpError "文件不存在" 404, none)
    else if ¬ stderrPipeOk then
      ({ httpError "转码初始化失败" 500 with
         headers := transcodeBaseHeaders ++ (httpError "转码初始化失败" 500).headers }, none)
    else if ¬ startOk then
      ({ httpError "转码启动失败" 500 with
         headers := transcodeBaseHeaders ++ (httpError "转码启动失败" 500).headers }, none)
    else
      ({ status := 200, headers := transcodeBaseHeaders,
         bodyBytes := ffmpegOutput, bodyText := "" }, some (ffmpegArgv filePath))

end EverythingWeb



namespace EverythingWeb

/-! ## Helper lemmas -/

/-- `wrap64` is the identity on the `int64` range. -/
theorem wrap64_eq {x : Int} (h1 : -2 ^ 63 ≤ x) (h2 : x < 2 ^ 63) : wrap64 x = x := by
  unfold wrap64
  have : (x + 2 ^ 63) % 2 ^ 64 = x + 2 ^ 63 := Int.emod_eq_of_lt (by omega) (by omega)
  omega

theorem splitOnDash_ne_nil (s : List Char) : splitOnDash s ≠ [] := by
  cases s with
  | nil => simp [splitOnDash]
  | cons c t =>
    simp only [splitOnDash]
    cases h : splitOnDash t with
    | nil => simp
    | cons h0 hs => by_cases hc : c = '-' <;> simp [hc]

/-- Splitting a dash-free string yields a single part. -/
theorem splitOnDash_no_dash {p : List Char} (h : '-' ∉ p) : splitOnDash p = [p] := by
  induction p with
  | nil => rfl
  | cons c t ih =>
    have hc : c ≠ '-' := fun hc => h (hc ▸ List.mem_cons_self c t)
    have ht : '-' ∉ t := fun ht => h (List.mem_cons_of_mem c ht)
    simp only [splitOnDash, ih ht]
    simp [hc]

/-- Splitting around the first dash when the leading part is
dash-free. -/
theorem splitOnDash_append {p0 rest : List Char} (h : '-' ∉ p0) :
    splitOnDash (p0 ++ '-' :: rest) = p0 :: splitOnDash rest := by
  induction p0 with
  | nil =>
    simp only [List.nil_append, splitOnDash]
    cases hr : splitOnDash rest with
    | nil => exact absurd hr (splitOnDash_ne_nil rest)
    | cons h hs => simp
  | cons c t ih =>
    have hc : c ≠ '-' := fun hc => h (hc ▸ List.mem_cons_self c t)
    have ht : '-' ∉ t := fun ht => h (List.mem_cons_of_mem c ht)
    simp only [List.cons_append, splitOnDash, List.append_eq]
    rw [ih ht]
    simp [hc]

/-- Any character of the split input lives in one of the parts (split
separators excepted). -/
theorem mem_splitOnDash {c : Char} {s : List Char} (hc : c ≠ '-') (h : c ∈ s) :
    ∃ p ∈ splitOnDash s, c ∈ p := by
  induction s with
  | nil => cases h
  | cons d t ih =>
    simp only [splitOnDash]
    cases hr : splitOnDash t with
    | nil => exact absurd hr (splitOnDash_ne_nil t)
    | cons h0 hs =>
      rcases List.mem_cons.mp h with rfl | hmem
      · have : ¬ c = '-' := hc
        simp only [if_neg this]
        exact ⟨c :: h0, List.mem_cons_self _ _, List.mem_cons_self _ _⟩
      · rcases ih hmem with ⟨p, hp, hcp⟩
        rw [hr] at hp
        rcases List.mem_cons.mp hp with rfl | hp'
        · by_cases hd : d = '-'
          · simp only [if_pos hd]
            exact ⟨p, List.mem_cons_of_mem _ (List.mem_cons_self _ _), hcp⟩
          · simp only [if_neg hd]
            exact ⟨d :: p, List.mem_cons_self _ _, List.mem_cons_of_mem _ hcp⟩
        · by_cases hd : d = '-'
          · simp only [if_pos hd]
            exact ⟨p, List.mem_cons_of_mem _ (List.mem_cons_of_mem _ hp'), hcp⟩
          · simp only [if_neg hd]
            exact ⟨p, List.mem_cons_of_mem _ hp', hcp⟩

/-- A string containing a non-digit character has no digit value. -/
theorem digitsVal_none_of_mem {c : Char} {l : List Char} (hc : ¬ c.isDigit) (h : c ∈ l) :
    digitsVal l = none := by
  induction l with
  | nil => cases h
  | cons d t ih =>
    rcases List.mem_cons.mp h with rfl | hmem
    · cases t with
      | nil => simp [digitsVal, hc]
      | cons e u => simp [digitsVal, hc]
    · cases t with
      | nil => cases hmem
      | cons e u =>
        by_cases hd : d.isDigit
        · simp [digitsVal, hd, ih hmem]
        · simp [digitsVal, hd]

/-- A part containing a comma never parses as an integer. -/
theorem parseInt64_none_of_comma {p : List Char} (h : ',' ∈ p) : parseInt64 p = none := by
  have hnd : ¬ (',' : Char).isDigit := by decide
  cases p with
  | nil => rfl
  | cons c t =>
    by_cases hc1 : c = '+'
    · subst hc1
      have ht : ',' ∈ t := by
        rcases List.mem_cons.mp h with h' | h'
        · exact absurd h'.symm (by decide)
        · exact h'
      simp [parseInt64, digitsVal_none_of_mem hnd ht]
    · by_cases hc2 : c = '-'
      · subst hc2
        have ht : ',' ∈ t := by
          rcases List.mem_cons.mp h with h' | h'
          · exact absurd h'.symm (by decide)
          · exact h'
        simp [parseInt64, digitsVal_none_of_mem hnd ht]
      · simp [parseInt64, hc1, hc2, digitsVal_none_of_mem hnd h]

end EverythingWeb

namespace EverythingWeb

/-- The handler's `(totalCount + pageSize - 1) / pageSize` is ceiling
division. -/
theorem totalPages_eq_ceil {tc ps : Int} (htc : 0 ≤ tc) (hps : 0 < ps) :
    totalPages tc ps = ⌈(tc : ℚ) / (ps : ℚ)⌉ := by
  unfold totalPages
  rw [Int.tdiv_eq_ediv (by omega) (by omega)]
  have h := Int.ediv_add_emod (tc + ps - 1) ps
  have hr0 : 0 ≤ (tc + ps - 1) % ps := Int.emod_nonneg _ (by omega)
  have hr1 : (tc + ps - 1) % ps < ps := Int.emod_lt_of_pos _ hps
  set r := (tc + ps - 1) % ps with hr
  set n := (tc + ps - 1) / ps with hn
  have hps' : (0 : ℚ) < (ps : ℚ) := by exact_mod_cast hps
  symm
  rw [Int.ceil_eq_iff]
  constructor
  · rw [lt_div_iff₀ hps']
    have hz : (n - 1) * ps < tc := by nlinarith
    calc ((n : ℚ) - 1) * (ps : ℚ) = (((n - 1) * ps : Int) : ℚ) := by push_cast; ring
    _ < (tc : ℚ) := by exact_mod_cast hz
  · rw [div_le_iff₀ hps']
    have hz : tc ≤ n * ps := by nlinarith
    calc (tc : ℚ) ≤ ((n * ps : Int) : ℚ) := by exact_mod_cast hz
    _ = (n : ℚ) * (ps : ℚ) := by push_cast; ring

/-- When every stat succeeds and the index window stays inside the
slice, the stat loop returns one record per index. -/
theorem statLoop_allOk_length {fs : String → Option FileInfo} (allPaths : List String)
    (hfs : ∀ p, (fs p).isSome) :
    ∀ (fuel : Nat) (i : Int), 0 ≤ i → i + fuel ≤ (allPaths.length : Int) →
      ∃ rs, statLoop fs allPaths i fuel = .ok rs ∧ rs.length = fuel := by
  intro fuel
  induction fuel with
  | zero => intro i _ _; exact ⟨[], rfl, rfl⟩
  | succ k ih =>
    intro i hi hle
    have hlt : i < (allPaths.length : Int) := by omega
    rcases ih (i + 1) (by omega) (by omega) with ⟨rs, hrs, hlen⟩
    have hin : (0 ≤ i ∧ i < (allPaths.length : Int)) := ⟨hi, hlt⟩
    rcases Option.isSome_iff_exists.mp (hfs (allPaths.get ⟨i.toNat, by omega⟩)) with ⟨info, hinfo⟩
    refine ⟨mkSearchResult (allPaths.get ⟨i.toNat, by omega⟩) info :: rs, ?_, by simp [hlen]⟩
    simp only [statLoop, dif_pos hin, hinfo, hrs]
    rfl

/-- An out-of-range start index makes the first loop iteration the Go
panic `allPaths[i]` raises. -/
theorem statLoop_oob {fs : String → Option FileInfo} (allPaths : List String)
    (i : Int) (fuel : Nat) (h : ¬ (0 ≤ i ∧ i < (allPaths.length : Int))) :
    statLoop fs allPaths i (fuel + 1) = .error "index out of range" := by
  simp only [statLoop, dif_neg h]

end EverythingWeb

namespace EverythingWeb

/-- A range spec containing a comma never yields a parsed pair: either
the dash split has the wrong arity, or the comma lands in a part, which
then fails integer parsing. -/
theorem parseRangeParts_none_of_comma {spec : List Char} (fileSize : Int)
    (h : ',' ∈ spec) : parseRangeParts spec fileSize = none := by
  rcases mem_splitOnDash (by decide) h with ⟨p, hp, hcp⟩
  unfold parseRangeParts
  split
  · rename_i p0 p1 heq
    rw [heq] at hp
    have hpe : p ≠ [] := by rintro rfl; cases hcp
    rcases List.mem_cons.mp hp with rfl | hp'
    · rw [if_neg hpe, parseInt64_none_of_comma hcp]
    · rcases List.mem_cons.mp hp' with rfl | hp''
      · cases hq : (if p0 = [] then some (0 : Int) else parseInt64 p0) with
        | none => rfl
        | some start =>
          rw [if_neg hpe, parseInt64_none_of_comma hcp]
      · cases hp''
  · rfl

/-- C1 (amended): for a header `bytes=<start>-<end>` (or `bytes=<start>-`)
with parseable decimal start, `start ≤ end`, `start < fileSize`, and —
the amendment — `end < fileSize`, `serveRange` answers 206 with headers
`Content-Range: bytes {start}-{end}/{fileSize}`,
`Content-Length: {end - start + 1}`, `Accept-Ranges: bytes`, and a body
of exactly `end - start + 1` bytes read from the file at offset
`start`, no trailing data.  (Without `end < fileSize` the headers still
read the same, but `io.CopyN` stops at end of file, so the body is
shorter than `end - start + 1`; see the counterexample.) -/
theorem serveRange_206_spec (p0 p1 : List Char) (start e fileSize : Int)
    (bytes : List Nat) (ct : String)
    (hd0 : '-' ∉ p0) (hp0 : parseInt64 p0 = some start) (hs0 : 0 ≤ start)
    (hp1 : (p1 = [] ∧ e = fileSize - 1) ∨ ('-' ∉ p1 ∧ parseInt64 p1 = some e))
    (hse : start ≤ e) (hsf : start < fileSize) (hef : e < fileSize)
    (hlen : (bytes.length : Int) = fileSize) (hfs : fileSize < 2 ^ 63) :
    serveRange (chars "bytes=" ++ (p0 ++ '-' :: p1)) fileSize bytes ct =
      { status := 206
        headers := [("Content-Type", ct),
          ("Content-Range",
            "bytes " ++ toString start ++ "-" ++ toString e ++ "/" ++ toString fileSize),
          ("Content-Length", toString (e - start + 1)),
          ("Accept-Ranges", "bytes")]
        bodyBytes := (bytes.drop start.toNat).take (e - start + 1).toNat
        bodyText := "" } ∧
    ((bytes.drop start.toNat).take (e - start + 1).toNat).length = (e - start + 1).toNat := by
  have hp0ne : p0 ≠ [] := by rintro rfl; simp [parseInt64] at hp0
  have hwrap : wrap64 (e - start + 1) = e - start + 1 := wrap64_eq (by omega) (by omega)
  have hsplit : splitOnDash (p0 ++ '-' :: p1) = [p0, p1] := by
    rw [splitOnDash_append hd0]
    rcases hp1 with ⟨rfl, _⟩ | ⟨hd1, _⟩
    · rfl
    · rw [splitOnDash_no_dash hd1]
  have hparse : parseRangeParts (p0 ++ '-' :: p1) fileSize = some (start, e) := by
    unfold parseRangeParts
    rw [hsplit]
    rcases hp1 with ⟨rfl, rfl⟩ | ⟨_, hp1v⟩
    · simp [if_neg hp0ne, hp0]
    · have hp1ne : p1 ≠ [] := by rintro rfl; simp [parseInt64] at hp1v
      simp [if_neg hp0ne, hp0, if_neg hp1ne, hp1v]
  constructor
  · show serveRange ('b' :: 'y' :: 't' :: 'e' :: 's' :: '=' :: (p0 ++ '-' :: p1))
        fileSize bytes ct = _
    simp only [serveRange, hparse]
    rw [if_neg (by omega : ¬ (start > e ∨ start ≥ fileSize))]
    simp only [hwrap]
  · rw [List.length_take, List.length_drop]
    omega

/-- C1 counterexample: on a 1000-byte file, `bytes=500-2000` passes the
code's validation (`start ≤ end`, `start < fileSize`), so the claim as
stated promises a body of 1501 bytes; the response indeed says
`Content-Length: 1501`, but only 500 bytes are read before end of
file. -/
theorem serveRange_overread_counterexample :
    (serveRange (chars "bytes=500-2000") 1000 (List.replicate 1000 7) "video/mp4").status
      = 206 ∧
    ("Content-Length", "1501") ∈
      (serveRange (chars "bytes=500-2000") 1000 (List.replicate 1000 7) "video/mp4").headers ∧
    (serveRange (chars "bytes=500-2000") 1000 (List.replicate 1000 7) "video/mp4").bodyBytes.length
      = 500 ∧
    (500 : Nat) ≠ 1501 :=
  ⟨by decide, by decide, by decide, by decide⟩

/-- C1 witness: the claim's own example — 1000-byte file,
`Range: bytes=500-` — served with status 206 and a 500-byte body. -/
theorem serveRange_206_spec_witness :
    (serveRange (chars "bytes=500-") 1000 (List.replicate 1000 7) "video/mp4").status = 206 ∧
    (serveRange (chars "bytes=500-") 1000 (List.replicate 1000 7) "video/mp4").bodyBytes.length
      = 500 := by
  have h := serveRange_206_spec (chars "500") [] 500 999 1000 (List.replicate 1000 7) "video/mp4"
    (by decide) (by decide) (by decide) (Or.inl ⟨rfl, by decide⟩) (by decide) (by decide)
    (by decide) (by simp) (by decide)
  have he : chars "bytes=500-" = chars "bytes=" ++ (chars "500" ++ '-' :: []) := by decide
  rw [he, h.1]
  exact ⟨rfl, by decide⟩

end EverythingWeb

namespace EverythingWeb

/-- C3 counterexample: `Range: bytes=-5` on a 1000-byte file is not
answered 416; the empty start position is Go's zero value `0`, and the
server responds 206 with the file's first 6 bytes (offsets 0–5). -/
theorem serveRange_suffix_counterexample :
    (serveRange (chars "bytes=-5") 1000 (List.replicate 1000 7) "video/mp4").status = 206 ∧
    (serveRange (chars "bytes=-5") 1000 (List.replicate 1000 7) "video/mp4").bodyBytes
      = List.replicate 6 7 ∧
    (206 : Nat) ≠ 416 :=
  ⟨by decide, by decide, by decide⟩

/-- C3 (amended): for every Range header `bytes=-<end>` with a
parseable, nonnegative decimal end and a nonempty file, `serveRange`
treats the empty start as `start = 0` (the `int64` zero value the code
never overwrites) and responds 206 — it does not treat the header as
malformed, and a suffix range is never interpreted as
last-`end`-bytes. -/
theorem serveRange_empty_start_spec (p1 : List Char) (e fileSize : Int)
    (bytes : List Nat) (ct : String)
    (hd1 : '-' ∉ p1) (hp1 : parseInt64 p1 = some e)
    (he : 0 ≤ e) (hf : 0 < fileSize) :
    (serveRange (chars "bytes=" ++ ('-' :: p1)) fileSize bytes ct).status = 206 ∧
    ("Content-Range", "bytes 0-" ++ toString e ++ "/" ++ toString fileSize) ∈
      (serveRange (chars "bytes=" ++ ('-' :: p1)) fileSize bytes ct).headers ∧
    (serveRange (chars "bytes=" ++ ('-' :: p1)) fileSize bytes ct).bodyText = "" := by
  have hp1ne : p1 ≠ [] := by rintro rfl; simp [parseInt64] at hp1
  have hsplit : splitOnDash ('-' :: p1) = [[], p1] := by
    have h := @splitOnDash_append [] p1 (by simp)
    rw [List.nil_append] at h
    rw [h, splitOnDash_no_dash hd1]
  have hparse : parseRangeParts ('-' :: p1) fileSize = some (0, e) := by
    unfold parseRangeParts
    rw [hsplit]
    simp [if_neg hp1ne, hp1]
  have hmain : serveRange (chars "bytes=" ++ ('-' :: p1)) fileSize bytes ct =
      { status := 206
        headers := [("Content-Type", ct),
          ("Content-Range", "bytes " ++ toString (0 : Int) ++ "-" ++ toString e ++ "/"
            ++ toString fileSize),
          ("Content-Length", toString (wrap64 (e - 0 + 1))),
          ("Accept-Ranges", "bytes")]
        bodyBytes := (bytes.drop (0 : Int).toNat).take (wrap64 (e - 0 + 1)).toNat
        bodyText := "" } := by
    show serveRange ('b' :: 'y' :: 't' :: 'e' :: 's' :: '=' :: ('-' :: p1))
        fileSize bytes ct = _
    simp only [serveRange, hparse]
    rw [if_neg (by omega : ¬ ((0 : Int) > e ∨ (0 : Int) ≥ fileSize))]
  rw [hmain]
  refine ⟨rfl, ?_, rfl⟩
  have h0 : ("bytes " ++ toString (0 : Int)) ++ "-" = "bytes 0-" := by decide
  simp only [List.mem_cons]
  right; left
  rw [← h0]

/-- C3 witness: a concrete suffix-form header (`bytes=-0` on a 1-byte
file) flows through the amended statement. -/
theorem serveRange_empty_start_spec_witness :
    (serveRange (chars "bytes=-0") 1 [9] "v").status = 206 ∧
    ("Content-Range", "bytes 0-0/1") ∈ (serveRange (chars "bytes=-0") 1 [9] "v").headers := by
  have h := serveRange_empty_start_spec (chars "0") 0 1 [9] "v"
    (by decide) (by decide) (by decide) (by decide)
  have he : chars "bytes=-0" = chars "bytes=" ++ ('-' :: chars "0") := by decide
  rw [he]
  exact ⟨h.1, by decide⟩

end EverythingWeb

namespace EverythingWeb

/-- C2 (amended): `serveRange` answers 416 whenever the parsed range
violates `start ≤ end` or `start < fileSize`, and whenever the Range
header contains a comma (multi-range request), for every file size and
every such header; the 416 response carries no file data — its body is
the fixed `http.Error` text `无效的Range头` plus a newline, not the empty
body the claim states. -/
theorem serveRange_416_spec :
    (∀ (p0 p1 : List Char) (start e fileSize : Int) (bytes : List Nat) (ct : String),
      '-' ∉ p0 → parseInt64 p0 = some start →
      ((p1 = [] ∧ e = fileSize - 1) ∨ ('-' ∉ p1 ∧ parseInt64 p1 = some e)) →
      (e < start ∨ fileSize ≤ start) →
      serveRange (chars "bytes=" ++ (p0 ++ '-' :: p1)) fileSize bytes ct = rangeError) ∧
    (∀ (rangeHeader : List Char) (fileSize : Int) (bytes : List Nat) (ct : String),
      ',' ∈ rangeHeader → serveRange rangeHeader fileSize bytes ct = rangeError) ∧
    rangeError.status = 416 ∧ rangeError.bodyBytes = [] ∧
    rangeError.bodyText = "无效的Range头\n" := by
  refine ⟨?_, ?_, rfl, rfl, rfl⟩
  · intro p0 p1 start e fileSize bytes ct hd0 hp0 hp1 hbad
    have hp0ne : p0 ≠ [] := by rintro rfl; simp [parseInt64] at hp0
    have hsplit : splitOnDash (p0 ++ '-' :: p1) = [p0, p1] := by
      rw [splitOnDash_append hd0]
      rcases hp1 with ⟨rfl, _⟩ | ⟨hd1, _⟩
      · rfl
      · rw [splitOnDash_no_dash hd1]
    have hparse : parseRangeParts (p0 ++ '-' :: p1) fileSize = some (start, e) := by
      unfold parseRangeParts
      rw [hsplit]
      rcases hp1 with ⟨rfl, rfl⟩ | ⟨_, hp1v⟩
      · simp [if_neg hp0ne, hp0]
      · have hp1ne : p1 ≠ [] := by rintro rfl; simp [parseInt64] at hp1v
        simp [if_neg hp0ne, hp0, if_neg hp1ne, hp1v]
    show serveRange ('b' :: 'y' :: 't' :: 'e' :: 's' :: '=' :: (p0 ++ '-' :: p1))
        fileSize bytes ct = rangeError
    simp only [serveRange, hparse]
    rw [if_pos (by omega : start > e ∨ start ≥ fileSize)]
  · intro rangeHeader fileSize bytes ct hmem
    unfold serveRange
    split
    · rename_i a tail
      simp only [List.mem_cons] at hmem
      rcases hmem with h | h | h | h | h | h | h
      · exact absurd h (by decide)
      · exact absurd h (by decide)
      · exact absurd h (by decide)
      · exact absurd h (by decide)
      · exact absurd h (by decide)
      · exact absurd h (by decide)
      · rw [parseRangeParts_none_of_comma fileSize h]
    · rfl

/-- C2 counterexample: `Range: bytes=2000-3000` on a 1000-byte file is
answered 416, but with `http.Error`'s message body — the body is not
empty as the claim states (no file data is sent, though). -/
theorem serveRange_416_body_counterexample :
    (serveRange (chars "bytes=2000-3000") 1000 (List.replicate 1000 7) "video/mp4").status
      = 416 ∧
    (serveRange (chars "bytes=2000-3000") 1000 (List.replicate 1000 7) "video/mp4").bodyText
      ≠ "" ∧
    (serveRange (chars "bytes=2000-3000") 1000 (List.replicate 1000 7) "video/mp4").bodyBytes
      = [] :=
  ⟨by decide, by decide, by decide⟩

/-- C2 witness: an unsatisfiable range (`bytes=2000-3000` on a 1000-byte
file) and a multi-range header (`bytes=0-5,7-9`) both flow through the
amended statement to the 416 response. -/
theorem serveRange_416_spec_witness :
    serveRange (chars "bytes=2000-3000") 1000 [] "v" = rangeError ∧
    serveRange (chars "bytes=0-5,7-9") 1000 [] "v" = rangeError := by
  constructor
  · have h := serveRange_416_spec.1 (chars "2000") (chars "3000") 2000 3000 1000 [] "v"
      (by decide) (by decide) (Or.inr ⟨by decide, by decide⟩) (by decide)
    have he : chars "bytes=2000-3000" = chars "bytes=" ++ (chars "2000" ++ '-' :: chars "3000") := by
      decide
    rw [he]
    exact h
  · exact serveRange_416_spec.2.1 (chars "bytes=0-5,7-9") 1000 [] "v" (by decide)

end EverythingWeb

namespace EverythingWeb

/-- C5: after `Put(q, P)` at time `t`, every `Get(q)` at an age
`now - t` strictly below the 10-minute TTL is a hit returning exactly
`P` in identical order (and, the lookup being pure, any number of
repeated `Get` calls return the same); a `Get(q)` at age ≥ TTL is a
miss. -/
theorem cache_put_get_spec (m : CacheMap) (q : String) (P : List String)
    (t now now' : Int) (hhit : now - t < cacheExpiry) (hmiss : cacheExpiry ≤ now' - t) :
    cacheGet (cachePut m q P t) now q = some P ∧
    cacheGet (cachePut m q P t) now' q = none := by
  constructor
  · simp [cacheGet, cachePut, hhit]
  · simp [cacheGet, cachePut]
    omega

/-- C5 witness: put then get within the TTL returns the stored list;
get at exactly the TTL misses. -/
theorem cache_put_get_spec_witness :
    cacheGet (cachePut emptyCache "a" ["x", "y"] 0) 1 "a" = some ["x", "y"] ∧
    cacheGet (cachePut emptyCache "a" ["x", "y"] 0) cacheExpiry "a" = none :=
  cache_put_get_spec emptyCache "a" ["x", "y"] 0 1 cacheExpiry (by decide) (by decide)

/-- C6 counterexample: an entry of age exactly TTL (`now - capturedAt =
cacheExpiry`) is NOT removed by the sweep — `cleanExpiredCache` deletes
only on the strict comparison `time.Since(...) > cacheExpiry`, while
the claim requires removal at age ≥ TTL. -/
theorem cleanExpiredCache_boundary_counterexample :
    cleanExpiredCache cacheExpiry (cachePut emptyCache "q" ["p"] 0) "q"
      = some { Paths := ["p"], Timestamp := 0 } ∧
    cleanExpiredCache cacheExpiry (cachePut emptyCache "q" ["p"] 0) "q" ≠ none :=
  ⟨by rfl, by decide⟩

/-- C6 (amended): one sweep removes from the cache exactly the entries
whose age `now - capturedAt` is strictly greater than the TTL; every
entry of age ≤ TTL — the age-exactly-TTL boundary included — is left
unchanged, and absent keys stay absent. -/
theorem cleanExpiredCache_spec (m : CacheMap) (now : Int) (q : String) :
    (∀ c, m q = some c → cacheExpiry < now - c.Timestamp →
      cleanExpiredCache now m q = none) ∧
    (∀ c, m q = some c → now - c.Timestamp ≤ cacheExpiry →
      cleanExpiredCache now m q = some c) ∧
    (m q = none → cleanExpiredCache now m q = none) := by
  refine ⟨fun c hc hold => ?_, fun c hc hyoung => ?_, fun hnone => ?_⟩
  · simp [cleanExpiredCache, hc, hold]
  · simp [cleanExpiredCache, hc]
    omega
  · simp [cleanExpiredCache, hnone]

/-- C6 witness: a sweep at twice the TTL removes an age-2·TTL entry; a
sweep at half the TTL keeps it. -/
theorem cleanExpiredCache_spec_witness :
    cleanExpiredCache (2 * cacheExpiry) (cachePut emptyCache "q" ["p"] 0) "q" = none ∧
    cleanExpiredCache (cacheExpiry / 2) (cachePut emptyCache "q" ["p"] 0) "q"
      = some { Paths := ["p"], Timestamp := 0 } := by
  constructor
  · exact (cleanExpiredCache_spec (cachePut emptyCache "q" ["p"] 0) (2 * cacheExpiry) "q").1
      { Paths := ["p"], Timestamp := 0 } (by rfl) (by decide)
  · exact (cleanExpiredCache_spec (cachePut emptyCache "q" ["p"] 0) (cacheExpiry / 2) "q").2.1
      { Paths := ["p"], Timestamp := 0 } (by rfl) (by decide)

/-- C9: a cache hit performs only reads on the cache: whenever the
lookup hits, `searchFilesWithCache` returns the map unchanged — every
entry (the hit one included, its `Paths` and `Timestamp`) is exactly as
before, so a read never refreshes a timestamp and an entry expires
exactly TTL after its `Put` regardless of intervening hits. -/
theorem cache_hit_frame (q : String) (page pageSize now : Int)
    (sdk es : Except String (List String)) (fs : String → Option FileInfo)
    (m : CacheMap) (paths : List String) (hhit : cacheGet m now q = some paths) :
    (searchFilesWithCache q page pageSize now sdk es fs m).2 = m := by
  unfold searchFilesWithCache
  rw [hhit]

/-- C9 witness: a concrete hit leaves the concrete cache map intact. -/
theorem cache_hit_frame_witness :
    (searchFilesWithCache "q" 1 50 1 (.error "sdkErr") (.error "esErr") fsNone
      (cachePut emptyCache "q" ["p1", "p2"] 0)).2 = cachePut emptyCache "q" ["p1", "p2"] 0 :=
  cache_hit_frame "q" 1 50 1 (.error "sdkErr") (.error "esErr") fsNone
    (cachePut emptyCache "q" ["p1", "p2"] 0) ["p1", "p2"] (by rfl)

/-- C7 (code bug): on a cache miss with both backends failing — the SDK
with `SDKfail`, es.exe with `ESfail` — the combined error interpolates
the es.exe error into BOTH verbs: `err` is overwritten by the
`searchWithESExe` call before `fmt.Errorf("搜索失败 - SDK错误: %v,
es.exe错误: %v", err, err)` runs, so the SDK error is dropped, contrary
to the claim (and to the format string's own labels).  The cache is
left unchanged on the double failure. -/
theorem combined_error_drops_sdk_error :
    (searchFilesWithCache "q" 1 50 0 (.error "SDKfail") (.error "ESfail") fsNone emptyCache).1
      = .goError "搜索失败 - SDK错误: ESfail, es.exe错误: ESfail" ∧
    (searchFilesWithCache "q" 1 50 0 (.error "SDKfail") (.error "ESfail") fsNone emptyCache).1
      ≠ .goError "搜索失败 - SDK错误: SDKfail, es.exe错误: ESfail" :=
  ⟨by rfl, by decide⟩

end EverythingWeb

namespace EverythingWeb

/-- C4 counterexample: the claim's quantification over every `page ≥ 1`
fails — at `page = 2^56 + 1` with `pageSize = 200` on a 1-element path
list, `(page-1)*pageSize` overflows `int64` to a negative `start`, the
loop guard `start < totalCount` passes, and `allPaths[start]` panics
with an index-out-of-range runtime error instead of returning the empty
page the claim promises for a page beyond `totalPages`. -/
theorem paginate_overflow_counterexample :
    paginate fsNone ["p"] (2 ^ 56 + 1) 200 false = .panic "index out of range" ∧
    paginate fsNone ["p"] (2 ^ 56 + 1) 200 false ≠ .ok [] 1 false :=
  ⟨by decide, by decide⟩

/-- C4 (amended): for every path list and every `pageSize ∈ [1, 200]`,
`page ≥ 1` with `page * pageSize < 2^63` (the amendment: the `int64`
index arithmetic must not overflow) and an `int64`-sized list,
`totalPages` is ceiling division (hence 0 at `totalCount = 0`), the
page window is the index interval
`[(page-1)*pageSize, min totalCount (page*pageSize))`, the unfiltered
slice (all stats succeeding) has length
`min pageSize (totalCount - (page-1)*pageSize)` whenever
`(page-1)*pageSize < totalCount`, and a page beyond `totalPages` yields
empty records with no error. -/
theorem pagination_spec (paths : List String) (page pageSize : Int) (fc : Bool)
    (hpage : 1 ≤ page) (hps1 : 1 ≤ pageSize) (hps2 : pageSize ≤ 200)
    (hov : page * pageSize < 2 ^ 63) (htc : (paths.length : Int) < 2 ^ 63) :
    totalPages paths.length pageSize = ⌈(paths.length : ℚ) / (pageSize : ℚ)⌉ ∧
    pageBounds page pageSize paths.length =
      ((page - 1) * pageSize, min (paths.length : Int) (page * pageSize)) ∧
    ((page - 1) * pageSize < (paths.length : Int) →
      ∃ rs, paginate fsAllOk paths page pageSize fc = .ok rs paths.length fc ∧
        (rs.length : Int) = min pageSize ((paths.length : Int) - (page - 1) * pageSize)) ∧
    ((paths.length : Int) ≤ (page - 1) * pageSize →
      ∀ fs, paginate fs paths page pageSize fc = .ok [] paths.length fc) := by
  have hs0 : 0 ≤ (page - 1) * pageSize := mul_nonneg (by omega) (by omega)
  have hs1 : (page - 1) * pageSize + pageSize = page * pageSize := by ring
  have hps0 : 0 ≤ page * pageSize := mul_nonneg (by omega) (by omega)
  have hwb : wrap64 ((page - 1) * pageSize) = (page - 1) * pageSize :=
    wrap64_eq (by omega) (by nlinarith)
  have hwe : wrap64 ((page - 1) * pageSize + pageSize) = page * pageSize := by
    rw [hs1]; exact wrap64_eq (by omega) (by omega)
  have hpb : pageBounds page pageSize (paths.length : Int) =
      ((page - 1) * pageSize, min (paths.length : Int) (page * pageSize)) := by
    simp only [pageBounds]
    rw [hwb, hwe]
    rw [Prod.mk.injEq]
    refine ⟨rfl, ?_⟩
    split <;> omega
  refine ⟨totalPages_eq_ceil (by positivity) (by omega), hpb, ?_, ?_⟩
  · intro hlt
    have hL0 : ¬ ((paths.length : Int) = 0) := by omega
    have hfs : ∀ p, (fsAllOk p).isSome := fun _ => rfl
    have hfuel : (page - 1) * pageSize +
        ((min (paths.length : Int) (page * pageSize) - (page - 1) * pageSize).toNat : Int)
        ≤ (paths.length : Int) := by omega
    rcases @statLoop_allOk_length fsAllOk paths hfs
        (min (paths.length : Int) (page * pageSize) - (page - 1) * pageSize).toNat
        ((page - 1) * pageSize) hs0 hfuel with ⟨rs, hrs, hlen⟩
    refine ⟨rs, ?_, ?_⟩
    · simp only [paginate]
      rw [if_neg hL0, hpb]
      rw [if_pos hlt, hrs]
    · omega
  · intro hge fs
    by_cases hL : (paths.length : Int) = 0
    · simp only [paginate]
      rw [if_pos hL]
      rw [show paths.length = 0 from by exact_mod_cast hL]
      rfl
    · simp only [paginate]
      rw [if_neg hL, hpb]
      rw [if_neg (by omega)]

/-- C4 witness: three paths, page 2 of size 2 — one unfiltered record,
`min 2 (3 - 2) = 1`. -/
theorem pagination_spec_witness :
    ∃ rs, paginate fsAllOk ["a", "b", "c"] 2 2 true = .ok rs 3 true ∧
      (rs.length : Int) = min 2 (3 - (2 - 1) * 2) := by
  have h := (pagination_spec ["a", "b", "c"] 2 2 true (by decide) (by decide) (by decide)
    (by decide) (by decide)).2.2.1 (by decide)
  simpa using h

end EverythingWeb

namespace EverythingWeb

/-- C8: when the one-time startup probe failed
(`checkFFmpegAvailability` saw an error, so `ffmpegAvailable = false`
for the process lifetime), every `/transcode/...` request — whatever
the URL, the filesystem state, or the would-be subprocess behaviour —
receives the 503 `http.Error` response and no transcoder process is
spawned; the handler only reads the startup boolean and never
re-probes. -/
theorem transcode_unavailable_503 (urlPath : List Nat) (statNotExist : List Nat → Bool)
    (stderrPipeOk startOk : Bool) (ffmpegOutput : List Nat) :
    transcodeHandler (checkFFmpegAvailability true) urlPath statNotExist
        stderrPipeOk startOk ffmpegOutput
      = (httpError "ffmpeg不可用" 503, none) ∧
    (transcodeHandler (checkFFmpegAvailability true) urlPath statNotExist
        stderrPipeOk startOk ffmpegOutput).1.status = 503 :=
  ⟨rfl, rfl⟩

/-- C10: the three path-carrying handlers derive the filesystem path
from the URL suffix by the same procedure — percent-decoding applied
exactly 3 times (`decodeLoop 3`, each pass `url.QueryUnescape`,
stopping early only when a pass fails) followed by replacing every
forward slash with a backslash.  Consequently a literal file name
containing a percent-escape-looking substring resolves differently from
the single-decoded path the client named: `/stream/C:/x/a%2520b.mp4`,
whose single decode is `C:\x\a%20b.mp4`, resolves to `C:\x\a b.mp4`.
A failing pass stops the loop and keeps the bytes as they are
(`50%.mp4`). -/
theorem path_decoding_spec :
    (∀ urlPath : List Nat, streamFilePath urlPath = backslashify (decodeLoop 3 (urlPath.drop 8))) ∧
    (∀ urlPath : List Nat, fileFilePath urlPath = backslashify (decodeLoop 3 (urlPath.drop 6))) ∧
    (∀ urlPath : List Nat,
      transcodeFilePath urlPath = backslashify (decodeLoop 3 (urlPath.drop 11))) ∧
    streamFilePath (ascii "/stream/C:/x/a%2520b.mp4") = ascii "C:\\x\\a b.mp4" ∧
    fileFilePath (ascii "/file/C:/x/a%2520b.mp4") = ascii "C:\\x\\a b.mp4" ∧
    transcodeFilePath (ascii "/transcode/C:/x/a%2520b.mp4") = ascii "C:\\x\\a b.mp4" ∧
    backslashify (decodeLoop 1 (ascii "C:/x/a%2520b.mp4")) = ascii "C:\\x\\a%20b.mp4" ∧
    ascii "C:\\x\\a b.mp4" ≠ ascii "C:\\x\\a%20b.mp4" ∧
    queryUnescape (ascii "50%.mp4") = none ∧
    streamFilePath (ascii "/stream/50%.mp4") = ascii "50%.mp4" :=
  ⟨fun _ => rfl, fun _ => rfl, fun _ => rfl, by decide, by decide, by decide, by decide,
   by decide, by decide, by decide⟩

end EverythingWeb
